import Mathlib

/-!
Verification development for the `clap` command-line argument parsing
library.  The repository's `src/output/fmt.rs` (terminal color handling)
is embedded directly; the parsing/validation core described by the spec is
modelled from the spec where its code is not part of the sources.

Environment snapshots are association lists from variable names to values;
terminal state is a pair of booleans saying whether stdout/stderr are ttys.
-/

/-- An environment snapshot: ordered association list of variable bindings. -/
abbrev Env := List (String × String)

/-- Look up a variable in an environment snapshot (first binding wins),
mirroring `std::env::var(name).ok()`. -/
def lookupEnv (env : Env) (name : String) : Option String :=
  match env with
  | [] => none
  | (k, v) :: rest => if k = name then some v else lookupEnv rest name

/-- `ColorWhen` from `src/output/fmt.rs`. -/
inductive ColorWhen where
  | Auto
  | Always
  | Never
deriving Repr, DecidableEq

/-- Terminal state: whether each standard stream is attached to a tty. -/
structure TermState where
  stdoutTty : Bool
  stderrTty : Bool
deriving Repr, DecidableEq

/-- `is_a_tty` from `src/output/fmt.rs` (the `feature = "color"` variant):
selects stderr or stdout and asks whether that stream is a tty. -/
def is_a_tty (term : TermState) (stderr : Bool) : Bool :=
  if stderr then term.stderrTty else term.stdoutTty

/-- `is_term_dumb` from `src/output/fmt.rs`:
`env::var("TERM").ok() == Some(String::from("dumb"))`. -/
def is_term_dumb (env : Env) : Bool :=
  lookupEnv env "TERM" = some "dumb"

/-- `ColorizerOption` from `src/output/fmt.rs`. -/
structure ColorizerOption where
  use_stderr : Bool
  when : ColorWhen
deriving Repr, DecidableEq

/-- `Colorizer` from `src/output/fmt.rs`. -/
structure Colorizer where
  when : ColorWhen
deriving Repr, DecidableEq

/-- `Colorizer::new` from `src/output/fmt.rs`: keeps the requested mode only
when the selected stream is a tty and the terminal is not dumb, otherwise
clamps to `Never`.  The ambient reads (`is_a_tty`, `is_term_dumb`) are made
explicit as the `term` and `env` arguments. -/
def Colorizer.new (option : ColorizerOption) (term : TermState) (env : Env) : Colorizer :=
  { when :=
      if is_a_tty term option.use_stderr && !is_term_dumb env then
        option.when
      else
        ColorWhen.Never }

/-- `Format` from `src/output/fmt.rs`. -/
inductive Format (α : Type) where
  | Error (msg : α)
  | Warning (msg : α)
  | Good (msg : α)
  | None (msg : α)
deriving Repr, DecidableEq

/-- The `color!` macro from `src/output/fmt.rs`: applies the requested
variant when the mode is `Auto` or `Always`, `None` when it is `Never`. -/
def colorApply {α : Type} (when : ColorWhen) (variant : α → Format α) (msg : α) : Format α :=
  match when with
  | ColorWhen.Auto => variant msg
  | ColorWhen.Always => variant msg
  | ColorWhen.Never => Format.None msg

/-- `Colorizer::good` from `src/output/fmt.rs`. -/
def Colorizer.good {α : Type} (c : Colorizer) (msg : α) : Format α :=
  colorApply c.when Format.Good msg

/-- `Colorizer::warning` from `src/output/fmt.rs`. -/
def Colorizer.warning {α : Type} (c : Colorizer) (msg : α) : Format α :=
  colorApply c.when Format.Warning msg

/-- `Colorizer::error` from `src/output/fmt.rs`. -/
def Colorizer.error {α : Type} (c : Colorizer) (msg : α) : Format α :=
  colorApply c.when Format.Error msg

/-- `Colorizer::none` from `src/output/fmt.rs`: always `Format::None`. -/
def Colorizer.none {α : Type} (c : Colorizer) (msg : α) : Format α :=
  Format.None msg

/-- `Format::format` in the no-color configuration
(`cfg(any(not(feature = "color"), target_os = "windows"))`) from
`src/output/fmt.rs`: returns the wrapped content for every variant. -/
def Format.formatPlain {α : Type} : Format α → α
  | Format.Error e => e
  | Format.Warning e => e
  | Format.Good e => e
  | Format.None e => e

/-- The no-color `Display` impl for `Format` from `src/output/fmt.rs`:
`write!(f, "{}", &self.format())` — renders the content unchanged. -/
def Format.render (f : Format String) : String :=
  f.formatPlain

/-- Modelled from the spec: `ArgSpec` (spec §3) — the declarative definition
of one flag, option, or positional argument.  The matching/validation core
that consumes it is not among the sources, so the fields the claims need are
taken from the spec's words: short character, long name, `takes_value`,
multiplicity (stackable / variadic), default value, environment-variable
fallback name, `requires` and `conflicts_with` id lists, `required` flag,
and positional index. -/
structure ArgSpec where
  id : String
  short : Option Char := Option.none
  long : Option String := Option.none
  takesValue : Bool := false
  multiple : Bool := false
  required : Bool := false
  positionalIndex : Option Nat := Option.none
  defaultValue : Option String := Option.none
  envFallback : Option String := Option.none
  requires : List String := []
  conflictsWith : List String := []
deriving Repr, DecidableEq

/-- Modelled from the spec: `ArgGroupSpec` (spec §3) — identifier, member
ids, `required` flag, `multiple` flag. -/
structure ArgGroupSpec where
  id : String
  members : List String
  required : Bool := false
  multiple : Bool := false
deriving Repr, DecidableEq

/-- Modelled from the spec: `AppSpec` (spec §3) — name, ordered `ArgSpec`
list and `ArgGroupSpec` list (one command level; the claims under
verification concern a single level's matching and validation). -/
structure AppSpec where
  name : String
  args : List ArgSpec := []
  groups : List ArgGroupSpec := []
deriving Repr, DecidableEq

/-- Modelled from the spec: a `MatchedArg` record of `ArgMatches` (spec §3) —
occurrence count plus the ordered value sequence (insertion order =
encounter order in the token stream). -/
structure MatchedArg where
  occurrences : Nat
  values : List String
deriving Repr, DecidableEq

/-- Modelled from the spec: the id-to-`MatchedArg` map of `ArgMatches`,
as an ordered association list (insertion order preserved). -/
abbrev Matches := List (String × MatchedArg)

/-- First `MatchedArg` recorded under an id, if any. -/
def Matches.find (m : Matches) (id : String) : Option MatchedArg :=
  match m with
  | [] => Option.none
  | (i, ma) :: rest => if i = id then some ma else Matches.find rest id

/-- Presence of an id in the matches. -/
def Matches.isPresent (m : Matches) (id : String) : Bool :=
  (Matches.find m id).isSome

/-- Occurrence count of an id (0 when absent). -/
def Matches.occurrencesOf (m : Matches) (id : String) : Nat :=
  match Matches.find m id with
  | Option.none => 0
  | some ma => ma.occurrences

/-- Ordered value sequence of an id ([] when absent). -/
def Matches.valuesOf (m : Matches) (id : String) : List String :=
  match Matches.find m id with
  | Option.none => []
  | some ma => ma.values

/-- Record one occurrence of `id` carrying values `vs`: bump the existing
record or append a fresh one (preserving encounter order). -/
def Matches.addOccurrence (m : Matches) (id : String) (vs : List String) : Matches :=
  match m with
  | [] => [(id, ⟨1, vs⟩)]
  | (i, ma) :: rest =>
    if i = id then (i, ⟨ma.occurrences + 1, ma.values ++ vs⟩) :: rest
    else (i, ma) :: Matches.addOccurrence rest id vs

/-- Modelled from the spec: the error taxonomy (spec §4.5) restricted to the
kinds the claims exercise; each error carries the offending name(s) and,
where applicable, a suggestion. -/
inductive ParseError where
  | unknownArgument (name : String) (suggestion : Option String)
  | missingRequiredArgument (name : String)
  | argumentConflict (a : String) (b : String)
  | emptyValue (name : String)
  | groupMissing (group : String)
  | groupMultiple (group : String) (members : List String)
deriving Repr, DecidableEq

/-- One inner step of the Levenshtein row recurrence: `prev` is the previous
row's suffix, `left` the freshly computed cell to the left. -/
def levRowAux (x : Char) : List Char → List Nat → Nat → List Nat
  | [], _, _ => []
  | _ :: _, [], _ => []
  | _ :: _, [_], _ => []
  | y :: ys, p0 :: p1 :: ps, left =>
    let d := min (p1 + 1) (min (left + 1) (p0 + (if x = y then 0 else 1)))
    d :: levRowAux x ys (p1 :: ps) d

/-- Advance one Levenshtein dynamic-programming row by the character `x`. -/
def levRow (x : Char) (b : List Char) (prev : List Nat) : List Nat :=
  match prev with
  | [] => []
  | p0 :: _ => (p0 + 1) :: levRowAux x b prev (p0 + 1)

/-- Modelled from the spec: the Suggestion Engine's bounded edit-distance
metric (spec §4.4) — Levenshtein distance via the standard row-by-row
dynamic programme. -/
def strDist (a b : String) : Nat :=
  (a.data.foldl (fun row x => levRow x b.data row) (List.range (b.data.length + 1))).getLastD 0

/-- Modelled from the spec: the distance threshold "scaling with name
length" (spec §4.4) — one edit allowed per three characters of the
candidate name. -/
def suggestionThreshold (candidate : String) : Nat :=
  candidate.data.length / 3

/-- Modelled from the spec: best candidate with its distance — the earliest
candidate of minimum distance among those within their threshold
(spec §4.4: "Ties break by earliest declaration order"). -/
def bestCandidate (input : String) : List String → Option (String × Nat)
  | [] => Option.none
  | c :: cs =>
    let d := strDist input c
    if d ≤ suggestionThreshold c then
      match bestCandidate input cs with
      | some (b, db) => if db < d then some (b, db) else some (c, d)
      | Option.none => some (c, d)
    else bestCandidate input cs

/-- Modelled from the spec: the Suggestion Engine (spec §4.4) — a pure
function from an input string and an ordered candidate list to the closest
candidate within threshold, or none. -/
def didYouMean (input : String) (candidates : List String) : Option String :=
  (bestCandidate input candidates).map Prod.fst

/-- Resolve-by-short from the Keymap Index (spec §4.1). -/
def AppSpec.findShort (s : AppSpec) (c : Char) : Option ArgSpec :=
  s.args.find? (fun a => a.short = some c)

/-- Resolve-by-long from the Keymap Index (spec §4.1). -/
def AppSpec.findLong (s : AppSpec) (name : String) : Option ArgSpec :=
  s.args.find? (fun a => a.long = some name)

/-- Resolve-by-position from the Keymap Index (spec §4.1). -/
def AppSpec.findPos (s : AppSpec) (n : Nat) : Option ArgSpec :=
  s.args.find? (fun a => a.positionalIndex = some n)

/-- The long names declared by a spec, in declaration order — the candidate
list handed to the Suggestion Engine on an unresolvable long token. -/
def AppSpec.longNames (s : AppSpec) : List String :=
  s.args.filterMap (fun a => a.long)

/-- Split a long token's body at the first `=` into name and optional
inline value (`--name=value`). -/
def splitEq (body : List Char) : String × Option String :=
  match body with
  | [] => (String.mk [], Option.none)
  | c :: rest =>
    if c = '=' then (String.mk [], some (String.mk rest))
    else
      let (nm, v) := splitEq rest
      (String.mk (c :: nm.data), v)

/-- Modelled from the spec: the Matcher's state (spec §4.2) — accumulated
matches, the next positional slot index (slots fill strictly in index
order, starting at 1), whether a bare `--` has switched to raw positional
mode, and the `AwaitingValueFor(id)` state of the token state machine. -/
structure MatchState where
  found : Matches
  pos : Nat
  raw : Bool
  awaiting : Option String
deriving DecidableEq

/-- The Matcher's initial state. -/
def initialMatchState : MatchState :=
  ⟨[], 1, false, Option.none⟩

/-- Process a short-flag cluster (spec §4.2): each character resolves via
the Keymap Index; a character taking no value records one occurrence; a
character taking a value consumes the rest of the cluster as its inline
value, or — when the cluster ends — asks for the following token (returned
as `some id`).  An unresolvable character is an `UnknownArgument`. -/
def shortCluster (spec : AppSpec) : List Char → Matches → Except ParseError (Matches × Option String)
  | [], m => Except.ok (m, Option.none)
  | c :: cs, m =>
    match spec.findShort c with
    | Option.none => Except.error (ParseError.unknownArgument (String.mk ['-', c]) Option.none)
    | some a =>
      if a.takesValue then
        match cs with
        | [] => Except.ok (m, some a.id)
        | _ :: _ => Except.ok (Matches.addOccurrence m a.id [String.mk cs], Option.none)
      else
        shortCluster spec cs (Matches.addOccurrence m a.id []) 

/-- Consume one positional token: fill the declared slot at the current
index (a variadic slot keeps collecting), or fail on an undeclared extra. -/
def positionalStep (spec : AppSpec) (st : MatchState) (t : String) : Except ParseError MatchState :=
  match spec.findPos st.pos with
  | Option.none => Except.error (ParseError.unknownArgument t Option.none)
  | some a =>
    Except.ok { st with
      found := Matches.addOccurrence st.found a.id [t],
      pos := if a.multiple then st.pos else st.pos + 1 }

/-- Modelled from the spec: one transition of the Matcher's token state
machine (spec §4.2).  In `AwaitingValueFor(id)` the token is the pending
option value; in raw mode every token is positional; a bare `--` enters raw
mode; `--name[=value]` resolves by long name (unknown names go through the
Suggestion Engine); `-abc` is a short-flag cluster; anything else is
positional. -/
def stepToken (spec : AppSpec) (st : MatchState) (t : String) : Except ParseError MatchState :=
  match st.awaiting with
  | some id =>
    Except.ok { st with
      found := Matches.addOccurrence st.found id [t],
      awaiting := Option.none }
  | Option.none =>
    if st.raw then positionalStep spec st t
    else
      match t.data with
      | ['-', '-'] => Except.ok { st with raw := true }
      | '-' :: '-' :: c :: cs =>
        let (name, inlineVal) := splitEq (c :: cs)
        match spec.findLong name with
        | Option.none =>
          Except.error (ParseError.unknownArgument t
            ((didYouMean name spec.longNames).map (fun s => String.mk ('-' :: '-' :: s.data))))
        | some a =>
          if a.takesValue then
            match inlineVal with
            | some v =>
              Except.ok { st with found := Matches.addOccurrence st.found a.id [v] }
            | Option.none => Except.ok { st with awaiting := some a.id }
          else
            Except.ok { st with found := Matches.addOccurrence st.found a.id [] }
      | '-' :: c :: cs =>
        match shortCluster spec (c :: cs) st.found with
        | Except.error e => Except.error e
        | Except.ok (m, aw) => Except.ok { st with found := m, awaiting := aw }
      | _ => positionalStep spec st t

/-- Modelled from the spec: the Matcher's run over the token list
(spec §4.2, §7) — one state transition per token, stopping at the first
structurally fatal misparse; an option still awaiting its mandatory value
at end of input is an `EmptyValue` error. -/
def runMatcher (spec : AppSpec) : List String → MatchState → Except ParseError MatchState
  | [], st =>
    match st.awaiting with
    | some id => Except.error (ParseError.emptyValue id)
    | Option.none => Except.ok st
  | t :: ts, st =>
    match stepToken spec st t with
    | Except.error e => Except.error e
    | Except.ok st' => runMatcher spec ts st'

/-- The environment-fallback read for one `ArgSpec`: consult the snapshot at
the configured fallback name, if any (spec §6: "read only for ArgSpecs
explicitly configured with an env-fallback name"). -/
def envValue (a : ArgSpec) (env : Env) : Option String :=
  match a.envFallback with
  | Option.none => Option.none
  | some n => lookupEnv env n

/-- The Validator's missing-required pass (spec §4.3): a required argument
absent with no default or environment value available is a
`MissingRequiredArgument`; the environment is consulted only through
`envValue`, the documented fallback mechanism. -/
def missingRequiredErrors (spec : AppSpec) (env : Env) (m : Matches) : List ParseError :=
  spec.args.filterMap (fun a =>
    if a.required ∧ Matches.isPresent m a.id = false ∧ a.defaultValue = Option.none
        ∧ envValue a env = Option.none then
      some (ParseError.missingRequiredArgument a.id)
    else Option.none)

/-- The Validator's `requires` pass (spec §4.3): every absent dependency of
every present argument yields a `MissingRequiredArgument` naming it. -/
def requiresErrors (spec : AppSpec) (m : Matches) : List ParseError :=
  spec.args.flatMap (fun a =>
    if Matches.isPresent m a.id then
      a.requires.filterMap (fun r =>
        if Matches.isPresent m r then Option.none
        else some (ParseError.missingRequiredArgument r))
    else [])

/-- The Validator's `conflicts_with` pass (spec §4.3): every simultaneously
present conflicting pair yields an `ArgumentConflict` naming both. -/
def conflictErrors (spec : AppSpec) (m : Matches) : List ParseError :=
  spec.args.flatMap (fun a =>
    if Matches.isPresent m a.id then
      a.conflictsWith.filterMap (fun c =>
        if Matches.isPresent m c then some (ParseError.argumentConflict a.id c)
        else Option.none)
    else [])

/-- The Validator's group pass (spec §4.3): a required group with no member
present, and a non-`multiple` group with more than one member present, are
errors naming the group (and, for the latter, the offending members). -/
def groupErrors (spec : AppSpec) (m : Matches) : List ParseError :=
  spec.groups.flatMap (fun g =>
    (if g.required ∧ g.members.filter (fun x => Matches.isPresent m x) = [] then
        [ParseError.groupMissing g.id]
      else [])
    ++ (if g.multiple = false ∧ 2 ≤ (g.members.filter (fun x => Matches.isPresent m x)).length then
          [ParseError.groupMultiple g.id (g.members.filter (fun x => Matches.isPresent m x))]
        else []))

/-- Modelled from the spec: the Validator's aggregated failure report
(spec §4.3, §7): every missing required argument, every absent dependency
of a present argument, every present conflict of a present argument, and
every group violation, concatenated into one report rather than stopping at
the first. -/
def validateMatches (spec : AppSpec) (env : Env) (m : Matches) : List ParseError :=
  missingRequiredErrors spec env m ++ requiresErrors spec m
    ++ conflictErrors spec m ++ groupErrors spec m

/-- Modelled from the spec: the Validator's materialization pass
(spec §4.3): an `ArgSpec` absent from the matches receives its environment
fallback value when the variable is set, else its declared default; a
present (CLI-supplied) record is left untouched.  Precedence
explicit-CLI-value > environment-variable > declared-default. -/
def materializeArgs : List ArgSpec → Env → Matches → Matches
  | [], _, m => m
  | a :: rest, env, m =>
    let m' :=
      if Matches.isPresent m a.id then m
      else
        match envValue a env with
        | some v => m ++ [(a.id, ⟨0, [v]⟩)]
        | Option.none =>
          match a.defaultValue with
          | some d => m ++ [(a.id, ⟨0, [d]⟩)]
          | Option.none => m
    materializeArgs rest env m'

/-- The materialization pass over a whole spec. -/
def materialize (spec : AppSpec) (env : Env) (m : Matches) : Matches :=
  materializeArgs spec.args env m

/-- Modelled from the spec: the whole parse-and-validate run (spec §2 data
flow): the Matcher consumes the tokens (stopping at the first fatal
misparse, reported as a singleton); then the Validator aggregates every
violation it finds, and on a clean pass materializes defaults and
environment fallbacks into the returned matches. -/
def parse (spec : AppSpec) (argv : List String) (env : Env) : Except (List ParseError) Matches :=
  match runMatcher spec argv initialMatchState with
  | Except.error e => Except.error [e]
  | Except.ok st =>
    match validateMatches spec env st.found with
    | [] => Except.ok (materialize spec env st.found)
    | errs => Except.error errs

/-- Modelled from the spec: developer errors of the one-time structural
self-check (spec §4.1, §7) — a distinct taxonomy from user-facing
`ParseError`s, never downgraded to one. -/
inductive SpecError where
  | duplicateShort
  | duplicateLong
  | nonContiguousPositionals
deriving Repr, DecidableEq

/-- The short characters declared by a spec, in declaration order. -/
def AppSpec.shortChars (s : AppSpec) : List Char :=
  s.args.filterMap (fun a => a.short)

/-- The positional indices declared by a spec, in declaration order. -/
def AppSpec.posIndices (s : AppSpec) : List Nat :=
  s.args.filterMap (fun a => a.positionalIndex)

/-- Positional indices are contiguous starting at 1 (spec §3 invariants):
no duplicates and every index lies in `1..count`. -/
def AppSpec.posContiguous (s : AppSpec) : Bool :=
  decide (s.posIndices.Nodup)
    && s.posIndices.all (fun n => decide (1 ≤ n) && decide (n ≤ s.posIndices.length))

/-- Modelled from the spec: the one-time spec-validation step (spec §4.1,
§9): runs the structural developer-error checks once, before the first
parse; only a spec it accepts is handed to the Matcher. -/
def buildSpec (s : AppSpec) : Except SpecError AppSpec :=
  if decide (s.shortChars.Nodup) = false then Except.error SpecError.duplicateShort
  else if decide (s.longNames.Nodup) = false then Except.error SpecError.duplicateLong
  else if s.posContiguous = false then Except.error SpecError.nonContiguousPositionals
  else Except.ok s

deriving instance DecidableEq for Except

/-- Fixture: a stackable short flag `-v` (spec §8's occurrence-counting
scenario). -/
def vSpec : AppSpec :=
  { name := "prog", args := [{ id := "v", short := some 'v', multiple := true }] }

/-- Fixture: a long option `--config` taking one mandatory value
(spec §8's suggestion scenario). -/
def cfgSpec : AppSpec :=
  { name := "prog", args := [{ id := "config", long := some "config", takesValue := true }] }

/-- Fixture: a required argument that will be left unsupplied. -/
def reqArg : ArgSpec := { id := "req", long := some "req", required := true }

/-- Fixture: an argument depending on `dep` and conflicting with `b`. -/
def aArg : ArgSpec := { id := "a", long := some "a", requires := ["dep"], conflictsWith := ["b"] }

/-- Fixture: the argument `aArg` conflicts with. -/
def bArg : ArgSpec := { id := "b", long := some "b" }

/-- Fixture: the dependency named by `aArg`. -/
def depArg : ArgSpec := { id := "dep", long := some "dep" }

/-- Fixture: a non-`multiple` group whose two members will both be
present. -/
def gGroup : ArgGroupSpec := { id := "g", members := ["a", "b"] }

/-- Fixture: a required group whose sole member will be absent. -/
def g2Group : ArgGroupSpec := { id := "g2", members := ["c"], required := true, multiple := true }

/-- Fixture: a spec exhibiting one violation of every Validator rule at
once — a missing required argument, an absent `requires` dependency, a
mutual conflict, a non-`multiple` group with two present members, and a
required group with no present member. -/
def wSpec : AppSpec :=
  { name := "prog",
    args := [reqArg, aArg, bArg, depArg],
    groups := [gGroup, g2Group] }

/-- Fixture matches for `wSpec`: `a` and `b` both present, nothing else. -/
def wMatches : Matches :=
  [("a", ⟨1, []⟩), ("b", ⟨1, []⟩)]

/-- Fixture: an option carrying both a declared default and an
environment-variable fallback (spec §8's precedence scenario). -/
def eArg : ArgSpec :=
  { id := "e", long := some "e", takesValue := true,
    defaultValue := some "dflt", envFallback := some "E_VAR" }

/-- Fixture: the spec declaring `eArg`. -/
def eSpec : AppSpec :=
  { name := "prog", args := [eArg] }

/-- `n`-fold recording of a flag occurrence, leftmost first — the matches
accumulated by `n` occurrences of a stackable flag. -/
def addFlagN (id : String) : Nat → Matches → Matches
  | 0, m => m
  | n + 1, m => addFlagN id n (Matches.addOccurrence m id [])

theorem missingRequiredErrors_env_congr (spec : AppSpec) (env1 env2 : Env) (m : Matches)
    (h : ∀ a ∈ spec.args, envValue a env1 = envValue a env2) :
    missingRequiredErrors spec env1 m = missingRequiredErrors spec env2 m := by
  unfold missingRequiredErrors
  exact List.filterMap_congr (fun a ha => by rw [h a ha])

theorem validateMatches_env_congr (spec : AppSpec) (env1 env2 : Env) (m : Matches)
    (h : ∀ a ∈ spec.args, envValue a env1 = envValue a env2) :
    validateMatches spec env1 m = validateMatches spec env2 m := by
  unfold validateMatches
  rw [missingRequiredErrors_env_congr spec env1 env2 m h]

theorem materializeArgs_env_congr : ∀ (args : List ArgSpec) (env1 env2 : Env) (m : Matches),
    (∀ a ∈ args, envValue a env1 = envValue a env2) →
    materializeArgs args env1 m = materializeArgs args env2 m
  | [], _, _, _, _ => rfl
  | a :: rest, env1, env2, m, h => by
    unfold materializeArgs
    rw [h a (List.mem_cons_self a rest)]
    exact materializeArgs_env_congr rest env1 env2 _
      (fun b hb => h b (List.mem_cons_of_mem a hb))

/-- C1 (counterexample): `Colorizer::new` does read ambient state — two
runs differing only in the `TERM` environment variable, and two differing
only in terminal state, construct different `Colorizer`s. -/
theorem colorizer_new_reads_ambient :
    Colorizer.new ⟨true, ColorWhen.Always⟩ ⟨true, true⟩ [("TERM", "dumb")]
      ≠ Colorizer.new ⟨true, ColorWhen.Always⟩ ⟨true, true⟩ [("TERM", "xterm")]
    ∧ Colorizer.new ⟨true, ColorWhen.Always⟩ ⟨true, true⟩ []
      ≠ Colorizer.new ⟨true, ColorWhen.Always⟩ ⟨false, false⟩ [] := by
  decide

/-- C1 (amended): the parse-and-validate run reads the environment only at
the fallback names of env-configured `ArgSpec`s — two environment snapshots
agreeing on every configured fallback name yield identical parse results
(the `Colorizer`, by contrast, does read `TERM` and terminal state; see the
counterexample). -/
theorem parse_env_reads_only_fallbacks (spec : AppSpec) (argv : List String) (env1 env2 : Env)
    (h : ∀ a ∈ spec.args, ∀ n, a.envFallback = some n → lookupEnv env1 n = lookupEnv env2 n) :
    parse spec argv env1 = parse spec argv env2 := by
  have hEnv : ∀ a ∈ spec.args, envValue a env1 = envValue a env2 := by
    intro a ha
    unfold envValue
    cases hf : a.envFallback with
    | none => rfl
    | some n => exact h a ha n hf
  unfold parse
  cases hr : runMatcher spec argv initialMatchState with
  | error e => rfl
  | ok st =>
    have h1 := validateMatches_env_congr spec env1 env2 st.found hEnv
    have h2 : materialize spec env1 st.found = materialize spec env2 st.found :=
      materializeArgs_env_congr spec.args env1 env2 st.found hEnv
    simp only [h1, h2]

/-- Witness for the amended C1: permuting unrelated variables of the
environment snapshot leaves a concrete parse result unchanged. -/
theorem parse_env_reads_only_fallbacks_check :
    parse eSpec ["--e", "cli"] [("E_VAR", "x"), ("HOME", "h1")]
      = parse eSpec ["--e", "cli"] [("HOME", "h2"), ("E_VAR", "x")] := by
  refine parse_env_reads_only_fallbacks eSpec ["--e", "cli"] _ _ ?_
  intro a ha n hf
  simp only [eSpec, List.mem_singleton] at ha
  subst ha
  simp only [eArg, Option.some.injEq] at hf
  subst hf
  decide

/-- C2: parsing is a pure function of the (spec, argv, environment) triple —
equal triples give structurally equal results. -/
theorem parse_deterministic (s1 s2 : AppSpec) (argv1 argv2 : List String) (env1 env2 : Env)
    (hs : s1 = s2) (ha : argv1 = argv2) (he : env1 = env2) :
    parse s1 argv1 env1 = parse s2 argv2 env2 := by
  subst hs
  subst ha
  subst he
  rfl

/-- Witness for C2 at a concrete triple. -/
theorem parse_deterministic_check :
    parse vSpec ["-v"] [] = parse vSpec ["-v"] [] :=
  parse_deterministic vSpec vSpec ["-v"] ["-v"] [] [] rfl rfl rfl

/-- C7: a spec accepted by the one-time structural self-check satisfies the
structural invariants: unique short characters, unique long names,
contiguous positional indices starting at 1; the check lives only in
`buildSpec`, not in `parse`, and its failures are `SpecError`s, a type
disjoint from the user-facing `ParseError`. -/
theorem buildSpec_structural_invariants (s t : AppSpec) (h : buildSpec s = Except.ok t) :
    t = s ∧ t.shortChars.Nodup ∧ t.longNames.Nodup ∧ t.posContiguous = true := by
  unfold buildSpec at h
  by_cases h1 : decide (s.shortChars.Nodup) = false
  · rw [if_pos h1] at h
    cases h
  · rw [if_neg h1] at h
    by_cases h2 : decide (s.longNames.Nodup) = false
    · rw [if_pos h2] at h
      cases h
    · rw [if_neg h2] at h
      by_cases h3 : s.posContiguous = false
      · rw [if_pos h3] at h
        cases h
      · rw [if_neg h3] at h
        injection h with h4
        subst h4
        simp only [decide_eq_false_iff_not, not_not] at h1 h2
        rw [Bool.not_eq_false] at h3
        exact ⟨rfl, h1, h2, h3⟩

/-- Witness for C7 on a concrete accepted spec. -/
theorem buildSpec_structural_invariants_check :
    cfgSpec = cfgSpec ∧ cfgSpec.shortChars.Nodup ∧ cfgSpec.longNames.Nodup
      ∧ cfgSpec.posContiguous = true :=
  buildSpec_structural_invariants cfgSpec cfgSpec (by decide)

/-- C8: `Colorizer::new` clamps the color mode — the requested `ColorWhen`
survives only when the selected stream is a tty and `TERM` is not exactly
"dumb"; otherwise the effective mode is `Never`. -/
theorem colorizer_new_clamps (opt : ColorizerOption) (term : TermState) (env : Env) :
    ((if opt.use_stderr then term.stderrTty else term.stdoutTty) = true ∧
        lookupEnv env "TERM" ≠ some "dumb" →
      Colorizer.new opt term env = ⟨opt.when⟩)
    ∧ ((if opt.use_stderr then term.stderrTty else term.stdoutTty) = false ∨
        lookupEnv env "TERM" = some "dumb" →
      Colorizer.new opt term env = ⟨ColorWhen.Never⟩) := by
  unfold Colorizer.new is_a_tty is_term_dumb
  constructor
  · rintro ⟨h1, h2⟩
    simp [h1, h2]
  · rintro (h | h) <;> simp [h]

/-- Witness for C8: an `Always` request is honored on a tty with a
non-dumb terminal and clamped to `Never` on a non-tty. -/
theorem colorizer_new_clamps_check :
    Colorizer.new ⟨true, ColorWhen.Auto⟩ ⟨true, true⟩ [("TERM", "xterm")] = ⟨ColorWhen.Auto⟩
    ∧ Colorizer.new ⟨false, ColorWhen.Always⟩ ⟨false, false⟩ [] = ⟨ColorWhen.Never⟩ :=
  ⟨(colorizer_new_clamps ⟨true, ColorWhen.Auto⟩ ⟨true, true⟩ [("TERM", "xterm")]).1 (by decide),
   (colorizer_new_clamps ⟨false, ColorWhen.Always⟩ ⟨false, false⟩ []).2 (by decide)⟩

/-- C9: after construction, `Auto` and `Always` are indistinguishable —
`good`/`warning`/`error` return their variant exactly when the mode is
`Auto` or `Always` and `None` exactly when it is `Never`; `none` always
returns `None`. -/
theorem colorizer_variant_iff_mode {α : Type} (c : Colorizer) (m : α) :
    (c.good m = Format.Good m ↔ c.when = ColorWhen.Auto ∨ c.when = ColorWhen.Always)
    ∧ (c.good m = Format.None m ↔ c.when = ColorWhen.Never)
    ∧ (c.warning m = Format.Warning m ↔ c.when = ColorWhen.Auto ∨ c.when = ColorWhen.Always)
    ∧ (c.warning m = Format.None m ↔ c.when = ColorWhen.Never)
    ∧ (c.error m = Format.Error m ↔ c.when = ColorWhen.Auto ∨ c.when = ColorWhen.Always)
    ∧ (c.error m = Format.None m ↔ c.when = ColorWhen.Never)
    ∧ c.none m = Format.None m := by
  obtain ⟨w⟩ := c
  cases w <;>
    simp [Colorizer.good, Colorizer.warning, Colorizer.error, Colorizer.none, colorApply]

/-- C10: in the no-color configuration, displaying a `Format` value is the
identity on its content, for all four variants. -/
theorem format_display_identity_plain (m : String) :
    Format.render (Format.Error m) = m ∧ Format.render (Format.Warning m) = m
    ∧ Format.render (Format.Good m) = m ∧ Format.render (Format.None m) = m :=
  ⟨rfl, rfl, rfl, rfl⟩

/-- C3: within one level the Validator's report aggregates every
independent violation — every missing required argument, every absent
`requires` dependency of a present argument, every present conflict, and
every group violation is a member of the one aggregated report — while the
Matcher returns at the first structurally fatal misparse with exactly one
error, processing no later tokens: an option missing its mandatory value is
the sole error, and of two unknown tokens only the first is ever reported. -/
theorem validator_aggregates_matcher_stops (spec : AppSpec) (env : Env) (m : Matches) :
    (∀ a ∈ spec.args, a.required = true → Matches.isPresent m a.id = false →
      a.defaultValue = Option.none → envValue a env = Option.none →
      ParseError.missingRequiredArgument a.id ∈ validateMatches spec env m)
    ∧ (∀ a ∈ spec.args, ∀ r ∈ a.requires, Matches.isPresent m a.id = true →
      Matches.isPresent m r = false →
      ParseError.missingRequiredArgument r ∈ validateMatches spec env m)
    ∧ (∀ a ∈ spec.args, ∀ c ∈ a.conflictsWith, Matches.isPresent m a.id = true →
      Matches.isPresent m c = true →
      ParseError.argumentConflict a.id c ∈ validateMatches spec env m)
    ∧ (∀ g ∈ spec.groups, g.required = true →
      g.members.filter (fun x => Matches.isPresent m x) = [] →
      ParseError.groupMissing g.id ∈ validateMatches spec env m)
    ∧ (∀ g ∈ spec.groups, g.multiple = false →
      2 ≤ (g.members.filter (fun x => Matches.isPresent m x)).length →
      ParseError.groupMultiple g.id (g.members.filter (fun x => Matches.isPresent m x))
        ∈ validateMatches spec env m)
    ∧ runMatcher cfgSpec ["--config"] initialMatchState
        = Except.error (ParseError.emptyValue "config")
    ∧ runMatcher cfgSpec ["--nope", "--alsobad"] initialMatchState
        = Except.error (ParseError.unknownArgument "--nope" Option.none) := by
  refine ⟨?_, ?_, ?_, ?_, ?_, by decide, by decide⟩
  · intro a ha h1 h2 h3 h4
    have hmem : ParseError.missingRequiredArgument a.id ∈ missingRequiredErrors spec env m := by
      unfold missingRequiredErrors
      exact List.mem_filterMap.mpr ⟨a, ha, by rw [if_pos ⟨h1, h2, h3, h4⟩]⟩
    simp only [validateMatches, List.mem_append]
    exact Or.inl (Or.inl (Or.inl hmem))
  · intro a ha r hr h1 h2
    have hmem : ParseError.missingRequiredArgument r ∈ requiresErrors spec m := by
      unfold requiresErrors
      refine List.mem_flatMap.mpr ⟨a, ha, ?_⟩
      rw [if_pos h1]
      exact List.mem_filterMap.mpr ⟨r, hr, by rw [if_neg (by simp [h2])]⟩
    simp only [validateMatches, List.mem_append]
    exact Or.inl (Or.inl (Or.inr hmem))
  · intro a ha c hc h1 h2
    have hmem : ParseError.argumentConflict a.id c ∈ conflictErrors spec m := by
      unfold conflictErrors
      refine List.mem_flatMap.mpr ⟨a, ha, ?_⟩
      rw [if_pos h1]
      exact List.mem_filterMap.mpr ⟨c, hc, by rw [if_pos h2]⟩
    simp only [validateMatches, List.mem_append]
    exact Or.inl (Or.inr hmem)
  · intro g hg h1 h2
    have hmem : ParseError.groupMissing g.id ∈ groupErrors spec m := by
      unfold groupErrors
      refine List.mem_flatMap.mpr ⟨g, hg, ?_⟩
      refine List.mem_append_left _ ?_
      rw [if_pos ⟨h1, h2⟩]
      exact List.mem_singleton.mpr rfl
    simp only [validateMatches, List.mem_append]
    exact Or.inr hmem
  · intro g hg h1 h2
    have hmem : ParseError.groupMultiple g.id
        (g.members.filter (fun x => Matches.isPresent m x)) ∈ groupErrors spec m := by
      unfold groupErrors
      refine List.mem_flatMap.mpr ⟨g, hg, ?_⟩
      refine List.mem_append_right _ ?_
      rw [if_pos ⟨h1, h2⟩]
      exact List.mem_singleton.mpr rfl
    simp only [validateMatches, List.mem_append]
    exact Or.inr hmem

/-- Witness for C3 on `wSpec` with `a` and `b` present: all five violation
kinds appear in the one aggregated report. -/
theorem validator_aggregates_matcher_stops_check :
    ParseError.missingRequiredArgument "req" ∈ validateMatches wSpec [] wMatches
    ∧ ParseError.missingRequiredArgument "dep" ∈ validateMatches wSpec [] wMatches
    ∧ ParseError.argumentConflict "a" "b" ∈ validateMatches wSpec [] wMatches
    ∧ ParseError.groupMissing "g2" ∈ validateMatches wSpec [] wMatches
    ∧ ParseError.groupMultiple "g" ["a", "b"] ∈ validateMatches wSpec [] wMatches :=
  ⟨(validator_aggregates_matcher_stops wSpec [] wMatches).1 reqArg (by decide)
      rfl rfl rfl rfl,
   (validator_aggregates_matcher_stops wSpec [] wMatches).2.1 aArg (by decide)
      "dep" (by decide) rfl rfl,
   (validator_aggregates_matcher_stops wSpec [] wMatches).2.2.1 aArg (by decide)
      "b" (by decide) rfl rfl,
   (validator_aggregates_matcher_stops wSpec [] wMatches).2.2.2.1 g2Group (by decide)
      rfl rfl,
   (validator_aggregates_matcher_stops wSpec [] wMatches).2.2.2.2.1 gGroup (by decide)
      rfl (by decide)⟩

theorem find_append_right_ne (m : Matches) (i j : String) (x : MatchedArg) (h : j ≠ i) :
    Matches.find (m ++ [(j, x)]) i = Matches.find m i := by
  induction m with
  | nil => simp [Matches.find, h]
  | cons hd tl ih =>
    obtain ⟨k, ma⟩ := hd
    by_cases hk : k = i
    · simp [Matches.find, hk]
    · simp [Matches.find, hk, ih]

theorem find_append_self (m : Matches) (i : String) (x : MatchedArg)
    (h : Matches.find m i = Option.none) :
    Matches.find (m ++ [(i, x)]) i = some x := by
  induction m with
  | nil => simp [Matches.find]
  | cons hd tl ih =>
    obtain ⟨k, ma⟩ := hd
    by_cases hk : k = i
    · rw [Matches.find, if_pos hk] at h
      cases h
    · rw [Matches.find, if_neg hk] at h
      show Matches.find ((k, ma) :: (tl ++ [(i, x)])) i = some x
      rw [Matches.find, if_neg hk]
      exact ih h

theorem materializeArgs_find_ne : ∀ (args : List ArgSpec) (env : Env) (m : Matches) (i : String),
    (∀ b ∈ args, b.id ≠ i) →
    Matches.find (materializeArgs args env m) i = Matches.find m i
  | [], _, _, _, _ => rfl
  | a :: rest, env, m, i, h => by
    have ha : a.id ≠ i := h a (List.mem_cons_self a rest)
    have hrest : ∀ b ∈ rest, b.id ≠ i := fun b hb => h b (List.mem_cons_of_mem a hb)
    unfold materializeArgs
    by_cases hp : Matches.isPresent m a.id = true
    · rw [if_pos hp]
      exact materializeArgs_find_ne rest env m i hrest
    · rw [if_neg hp]
      cases he : envValue a env with
      | some v =>
        simp only [he]
        rw [materializeArgs_find_ne rest env _ i hrest]
        exact find_append_right_ne m i a.id _ ha
      | none =>
        simp only [he]
        cases hd : a.defaultValue with
        | some d =>
          simp only [hd]
          rw [materializeArgs_find_ne rest env _ i hrest]
          exact find_append_right_ne m i a.id _ ha
        | none =>
          simp only [hd]
          exact materializeArgs_find_ne rest env m i hrest

theorem materializeArgs_append : ∀ (xs ys : List ArgSpec) (env : Env) (m : Matches),
    materializeArgs (xs ++ ys) env m = materializeArgs ys env (materializeArgs xs env m)
  | [], ys, env, m => rfl
  | a :: xs, ys, env, m => by
    simp only [List.cons_append, materializeArgs]
    exact materializeArgs_append xs ys env _

/-- C4: value-source precedence for an `ArgSpec` with both an environment
fallback and a declared default — a CLI-present record is left untouched
(whatever the environment holds), an absent one takes the environment
value when the fallback variable is set, and the declared default
otherwise. -/
theorem value_precedence (spec : AppSpec) (env : Env) (m : Matches) (a : ArgSpec) (n d v : String)
    (hmem : a ∈ spec.args) (hnodup : (spec.args.map ArgSpec.id).Nodup)
    (hfall : a.envFallback = some n) (hdef : a.defaultValue = some d) :
    (Matches.isPresent m a.id = true →
      Matches.valuesOf (materialize spec env m) a.id = Matches.valuesOf m a.id)
    ∧ (Matches.isPresent m a.id = false → lookupEnv env n = some v →
      Matches.valuesOf (materialize spec env m) a.id = [v])
    ∧ (Matches.isPresent m a.id = false → lookupEnv env n = Option.none →
      Matches.valuesOf (materialize spec env m) a.id = [d]) := by
  obtain ⟨l1, l2, hsplit⟩ := List.append_of_mem hmem
  have hnodup' := hnodup
  rw [hsplit, List.map_append, List.map_cons, List.nodup_append] at hnodup'
  obtain ⟨hn1, hn2, hdisj⟩ := hnodup'
  have hl1 : ∀ b ∈ l1, b.id ≠ a.id := by
    intro b hb heq
    exact hdisj (List.mem_map_of_mem ArgSpec.id hb)
      (by rw [heq]; exact List.mem_cons_self a.id (l2.map ArgSpec.id))
  have hl2 : ∀ b ∈ l2, b.id ≠ a.id := by
    intro b hb heq
    exact (List.nodup_cons.mp hn2).1 (heq ▸ List.mem_map_of_mem ArgSpec.id hb)
  have hM1 : Matches.find (materializeArgs l1 env m) a.id = Matches.find m a.id :=
    materializeArgs_find_ne l1 env m a.id hl1
  refine ⟨?_, ?_, ?_⟩
  · intro hp
    unfold materialize
    rw [hsplit, materializeArgs_append]
    unfold materializeArgs
    rw [if_pos (show Matches.isPresent (materializeArgs l1 env m) a.id = true by
      unfold Matches.isPresent
      rw [hM1]
      exact hp)]
    unfold Matches.valuesOf
    rw [materializeArgs_find_ne l2 env _ a.id hl2, hM1]
  · intro hp henv
    have hnone : Matches.find m a.id = Option.none := by
      unfold Matches.isPresent at hp
      exact Option.not_isSome_iff_eq_none.mp (by rw [hp]; exact Bool.false_ne_true)
    unfold materialize
    rw [hsplit, materializeArgs_append]
    unfold materializeArgs
    rw [if_neg (show ¬Matches.isPresent (materializeArgs l1 env m) a.id = true by
      unfold Matches.isPresent
      rw [hM1, hnone]
      exact Bool.false_ne_true)]
    have he : envValue a env = some v := by
      unfold envValue
      rw [hfall]
      exact henv
    simp only [he]
    unfold Matches.valuesOf
    rw [materializeArgs_find_ne l2 env _ a.id hl2,
      find_append_self _ a.id _ (by rw [hM1]; exact hnone)]
  · intro hp henv
    have hnone : Matches.find m a.id = Option.none := by
      unfold Matches.isPresent at hp
      exact Option.not_isSome_iff_eq_none.mp (by rw [hp]; exact Bool.false_ne_true)
    unfold materialize
    rw [hsplit, materializeArgs_append]
    unfold materializeArgs
    rw [if_neg (show ¬Matches.isPresent (materializeArgs l1 env m) a.id = true by
      unfold Matches.isPresent
      rw [hM1, hnone]
      exact Bool.false_ne_true)]
    have he : envValue a env = Option.none := by
      unfold envValue
      rw [hfall]
      exact henv
    simp only [he, hdef]
    unfold Matches.valuesOf
    rw [materializeArgs_find_ne l2 env _ a.id hl2,
      find_append_self _ a.id _ (by rw [hM1]; exact hnone)]

/-- Witness for C4 on `eSpec`: CLI value kept even with the variable set;
environment value used when absent and set; default used when absent and
unset. -/
theorem value_precedence_check :
    Matches.valuesOf (materialize eSpec [("E_VAR", "fromenv")] [("e", ⟨1, ["cli"]⟩)]) "e" = ["cli"]
    ∧ Matches.valuesOf (materialize eSpec [("E_VAR", "fromenv")] []) "e" = ["fromenv"]
    ∧ Matches.valuesOf (materialize eSpec [] []) "e" = ["dflt"] :=
  ⟨(value_precedence eSpec [("E_VAR", "fromenv")] [("e", ⟨1, ["cli"]⟩)] eArg
      "E_VAR" "dflt" "fromenv" (by decide) (by decide) rfl rfl).1 rfl,
   (value_precedence eSpec [("E_VAR", "fromenv")] [] eArg
      "E_VAR" "dflt" "fromenv" (by decide) (by decide) rfl rfl).2.1 rfl rfl,
   (value_precedence eSpec [] [] eArg
      "E_VAR" "dflt" "fromenv" (by decide) (by decide) rfl rfl).2.2 rfl rfl⟩

theorem find_addOccurrence_self (m : Matches) (i : String) (vs : List String) :
    Matches.find (Matches.addOccurrence m i vs) i
      = some ⟨Matches.occurrencesOf m i + 1, Matches.valuesOf m i ++ vs⟩ := by
  induction m with
  | nil => simp [Matches.addOccurrence, Matches.find, Matches.occurrencesOf, Matches.valuesOf]
  | cons hd tl ih =>
    obtain ⟨k, ma⟩ := hd
    by_cases hk : k = i
    · simp [Matches.addOccurrence, Matches.find, Matches.occurrencesOf, Matches.valuesOf, hk]
    · simp [Matches.addOccurrence, Matches.find, Matches.occurrencesOf, Matches.valuesOf, hk, ih]

theorem occ_addOccurrence (m : Matches) (i : String) (vs : List String) :
    Matches.occurrencesOf (Matches.addOccurrence m i vs) i = Matches.occurrencesOf m i + 1 := by
  unfold Matches.occurrencesOf
  rw [find_addOccurrence_self]
  rfl

theorem occ_addFlagN (i : String) : ∀ (n : Nat) (m : Matches),
    Matches.occurrencesOf (addFlagN i n m) i = Matches.occurrencesOf m i + n
  | 0, m => rfl
  | n + 1, m => by
    show Matches.occurrencesOf (addFlagN i n (Matches.addOccurrence m i [])) i = _
    rw [occ_addFlagN i n, occ_addOccurrence]
    omega

theorem stepToken_v (m : Matches) (p : Nat) :
    stepToken vSpec ⟨m, p, false, Option.none⟩ "-v"
      = Except.ok ⟨Matches.addOccurrence m "v" [], p, false, Option.none⟩ := rfl

theorem runMatcher_v_replicate : ∀ (n : Nat) (m : Matches) (p : Nat),
    runMatcher vSpec (List.replicate n "-v") ⟨m, p, false, Option.none⟩
      = Except.ok ⟨addFlagN "v" n m, p, false, Option.none⟩
  | 0, m, p => rfl
  | n + 1, m, p => by
    rw [List.replicate_succ]
    simp only [runMatcher, stepToken_v]
    exact runMatcher_v_replicate n (Matches.addOccurrence m "v" []) p

theorem shortCluster_v : ∀ (k : Nat) (m : Matches),
    shortCluster vSpec (List.replicate k 'v') m = Except.ok (addFlagN "v" k m, Option.none)
  | 0, m => rfl
  | k + 1, m => by
    rw [List.replicate_succ]
    show shortCluster vSpec (List.replicate k 'v') (Matches.addOccurrence m "v" [])
      = Except.ok (addFlagN "v" (k + 1) m, Option.none)
    exact shortCluster_v k (Matches.addOccurrence m "v" [])

theorem stepToken_v_cluster_eq (cs : List Char) (m : Matches) (p : Nat) :
    stepToken vSpec ⟨m, p, false, Option.none⟩ (String.mk ('-' :: 'v' :: cs))
      = match shortCluster vSpec ('v' :: cs) m with
        | Except.error e => Except.error e
        | Except.ok (m', aw) => Except.ok ⟨m', p, false, aw⟩ := rfl

theorem stepToken_v_cluster (n : Nat) (m : Matches) (p : Nat) :
    stepToken vSpec ⟨m, p, false, Option.none⟩ (String.mk ('-' :: 'v' :: List.replicate n 'v'))
      = Except.ok ⟨addFlagN "v" (n + 1) m, p, false, Option.none⟩ := by
  rw [stepToken_v_cluster_eq]
  have h2 := shortCluster_v (n + 1) m
  rw [List.replicate_succ] at h2
  rw [h2]

theorem runMatcher_v_cluster (n : Nat) (m : Matches) (p : Nat) :
    runMatcher vSpec [String.mk ('-' :: 'v' :: List.replicate n 'v')] ⟨m, p, false, Option.none⟩
      = Except.ok ⟨addFlagN "v" (n + 1) m, p, false, Option.none⟩ := by
  simp only [runMatcher, stepToken_v_cluster n m p]

theorem validateMatches_vSpec (env : Env) (m : Matches) : validateMatches vSpec env m = [] := by
  cases h : Matches.isPresent m "v" <;>
    simp [validateMatches, missingRequiredErrors, requiresErrors, conflictErrors, groupErrors,
      vSpec, h]

theorem materialize_vSpec (env : Env) (m : Matches) : materialize vSpec env m = m := by
  cases h : Matches.isPresent m "v" <;>
    simp [materialize, materializeArgs, envValue, vSpec, h]

theorem occ_addFlagN_nil (n : Nat) : Matches.occurrencesOf (addFlagN "v" n []) "v" = n := by
  rw [occ_addFlagN]
  simp [Matches.occurrencesOf, Matches.find]

/-- C5: occurrence-count equivalence for a stackable short flag — `n`
separate `-v` tokens and one `n`-character `-v` cluster both parse
successfully and both yield occurrence count `n`; in particular
`-v -v -v` and `-vvv` produce the very same matches, with count 3. -/
theorem stackable_flag_occurrences (n : Nat) :
    (∃ M, parse vSpec (List.replicate n "-v") [] = Except.ok M
      ∧ Matches.occurrencesOf M "v" = n)
    ∧ (1 ≤ n → ∃ M, parse vSpec [String.mk ('-' :: List.replicate n 'v')] [] = Except.ok M
      ∧ Matches.occurrencesOf M "v" = n)
    ∧ parse vSpec ["-v", "-v", "-v"] [] = parse vSpec ["-vvv"] []
    ∧ (∃ M, parse vSpec ["-vvv"] [] = Except.ok M ∧ Matches.occurrencesOf M "v" = 3) := by
  refine ⟨?_, ?_, by decide, ⟨[("v", ⟨3, []⟩)], by decide, by decide⟩⟩
  · refine ⟨addFlagN "v" n [], ?_, occ_addFlagN_nil n⟩
    simp only [parse, initialMatchState, runMatcher_v_replicate n [] 1, validateMatches_vSpec,
      materialize_vSpec]
  · intro hn
    obtain ⟨k, rfl⟩ : ∃ k, n = k + 1 := ⟨n - 1, by omega⟩
    refine ⟨addFlagN "v" (k + 1) [], ?_, occ_addFlagN_nil (k + 1)⟩
    rw [List.replicate_succ]
    simp only [parse, initialMatchState, runMatcher_v_cluster k [] 1, validateMatches_vSpec,
      materialize_vSpec]

/-- Witness for C5 at `n = 3`. -/
theorem stackable_flag_occurrences_check :
    (∃ M, parse vSpec (List.replicate 3 "-v") [] = Except.ok M
      ∧ Matches.occurrencesOf M "v" = 3)
    ∧ (∃ M, parse vSpec [String.mk ('-' :: List.replicate 3 'v')] [] = Except.ok M
      ∧ Matches.occurrencesOf M "v" = 3) :=
  ⟨(stackable_flag_occurrences 3).1, (stackable_flag_occurrences 3).2.1 (by decide)⟩

theorem bestCandidate_unfold (input c : String) (cs : List String) :
    bestCandidate input (c :: cs) =
      if strDist input c ≤ suggestionThreshold c then
        match bestCandidate input cs with
        | some (b, db) =>
          if db < strDist input c then some (b, db) else some (c, strDist input c)
        | Option.none => some (c, strDist input c)
      else bestCandidate input cs := rfl

theorem bestCandidate_spec (input : String) : ∀ (cs : List String),
    (bestCandidate input cs = Option.none →
      ∀ c ∈ cs, suggestionThreshold c < strDist input c)
    ∧ (∀ b d, bestCandidate input cs = some (b, d) →
      d = strDist input b ∧ d ≤ suggestionThreshold b
      ∧ (∀ c ∈ cs, strDist input c ≤ suggestionThreshold c → d ≤ strDist input c)
      ∧ ∃ l1 l2, cs = l1 ++ b :: l2
          ∧ ∀ c ∈ l1, strDist input c ≤ suggestionThreshold c → d < strDist input c)
  | [] => by
    constructor
    · intro _ c hc
      cases hc
    · intro b d h
      cases h
  | c :: cs => by
    obtain ⟨ihNone, ihSome⟩ := bestCandidate_spec input cs
    rw [bestCandidate_unfold]
    by_cases h1 : strDist input c ≤ suggestionThreshold c
    · rw [if_pos h1]
      cases hrec : bestCandidate input cs with
      | none =>
        constructor
        · intro h
          cases h
        · intro b d h
          rw [Option.some.injEq, Prod.mk.injEq] at h
          obtain ⟨hb, hd⟩ := h
          subst hb
          subst hd
          refine ⟨rfl, h1, ?_, [], cs, rfl, ?_⟩
          · intro x hx hth
            rcases List.mem_cons.mp hx with hx | hx
            · subst hx
              exact le_refl _
            · exact absurd hth (not_le.mpr (ihNone hrec x hx))
          · intro x hx
            cases hx
      | some bd =>
        obtain ⟨b', db⟩ := bd
        dsimp only
        obtain ⟨hdist, hth, hmin, l1, l2, hsplit, hearlier⟩ :=
          ihSome b' db hrec
        by_cases h2 : db < strDist input c
        · rw [if_pos h2]
          constructor
          · intro h
            cases h
          · intro b d h
            rw [Option.some.injEq, Prod.mk.injEq] at h
            obtain ⟨hb, hd⟩ := h
            subst hb
            subst hd
            refine ⟨hdist, hth, ?_, c :: l1, l2, by rw [hsplit, List.cons_append], ?_⟩
            · intro x hx hxth
              rcases List.mem_cons.mp hx with hx | hx
              · subst hx
                exact le_of_lt h2
              · exact hmin x hx hxth
            · intro x hx hxth
              rcases List.mem_cons.mp hx with hx | hx
              · subst hx
                exact h2
              · exact hearlier x hx hxth
        · rw [if_neg h2]
          constructor
          · intro h
            cases h
          · intro b d h
            rw [Option.some.injEq, Prod.mk.injEq] at h
            obtain ⟨hb, hd⟩ := h
            subst hb
            subst hd
            refine ⟨rfl, h1, ?_, [], cs, rfl, ?_⟩
            · intro x hx hxth
              rcases List.mem_cons.mp hx with hx | hx
              · subst hx
                exact le_refl _
              · exact le_trans (not_lt.mp h2) (hmin x hx hxth)
            · intro x hx
              cases hx
    · rw [if_neg h1]
      constructor
      · intro h x hx
        rcases List.mem_cons.mp hx with hx | hx
        · subst hx
          exact not_le.mp h1
        · exact ihNone h x hx
      · intro b d h
        obtain ⟨hdist, hth, hmin, l1, l2, hsplit, hearlier⟩ := ihSome b d h
        refine ⟨hdist, hth, ?_, c :: l1, l2, by rw [hsplit, List.cons_append], ?_⟩
        · intro x hx hxth
          rcases List.mem_cons.mp hx with hx | hx
          · subst hx
            exact absurd hxth h1
          · exact hmin x hx hxth
        · intro x hx hxth
          rcases List.mem_cons.mp hx with hx | hx
          · subst hx
            exact absurd hxth h1
          · exact hearlier x hx hxth

/-- C6: the Suggestion Engine is a pure function of the input string and
the ordered candidate list — when it returns a candidate, that candidate is
within its length-scaled threshold, of minimum distance among all
within-threshold candidates, and earliest in declaration order among the
minima; when it returns none, no candidate is within threshold; and on the
declared long name `--config` the token `--cofnig` produces an
`UnknownArgument` error carrying suggestion `--config`. -/
theorem suggestion_engine_correct (input : String) (candidates : List String) :
    (∀ c, didYouMean input candidates = some c →
      c ∈ candidates ∧ strDist input c ≤ suggestionThreshold c
      ∧ (∀ x ∈ candidates, strDist input x ≤ suggestionThreshold x →
          strDist input c ≤ strDist input x)
      ∧ ∃ l1 l2, candidates = l1 ++ c :: l2
          ∧ ∀ x ∈ l1, strDist input x ≤ suggestionThreshold x →
            strDist input c < strDist input x)
    ∧ (didYouMean input candidates = Option.none →
      ∀ x ∈ candidates, suggestionThreshold x < strDist input x)
    ∧ runMatcher cfgSpec ["--cofnig"] initialMatchState
        = Except.error (ParseError.unknownArgument "--cofnig" (some "--config"))
    ∧ parse cfgSpec ["--cofnig"] []
        = Except.error [ParseError.unknownArgument "--cofnig" (some "--config")] := by
  refine ⟨?_, ?_, by decide, by decide⟩
  · intro c h
    obtain ⟨⟨b, d⟩, hbd, hfst⟩ := Option.map_eq_some'.mp h
    subst hfst
    obtain ⟨hdist, hth, hmin, l1, l2, hsplit, hearlier⟩ :=
      (bestCandidate_spec input candidates).2 b d hbd
    subst hdist
    refine ⟨?_, hth, hmin, l1, l2, hsplit, hearlier⟩
    rw [hsplit]
    exact List.mem_append_right l1 (List.mem_cons_self b l2)
  · intro h
    exact (bestCandidate_spec input candidates).1 (Option.map_eq_none'.mp h)

/-- Witness for C6 at input `cofnig` against the candidate list
`[config]`: the returned suggestion is within threshold, minimal, and
earliest. -/
theorem suggestion_engine_correct_check :
    "config" ∈ ["config"] ∧ strDist "cofnig" "config" ≤ suggestionThreshold "config"
    ∧ (∀ x ∈ ["config"], strDist "cofnig" x ≤ suggestionThreshold x →
        strDist "cofnig" "config" ≤ strDist "cofnig" x)
    ∧ ∃ l1 l2, ["config"] = l1 ++ "config" :: l2
        ∧ ∀ x ∈ l1, strDist "cofnig" x ≤ suggestionThreshold x →
          strDist "cofnig" "config" < strDist "cofnig" x :=
  (suggestion_engine_correct "cofnig" ["config"]).1 "config" (by decide)
